import Mathlib

/-!
Verification development for the torchbricks brick-composition engine.

The repository's composition core (the `torchbricks.bricks` module with
`Stage`, `BrickTrainable`, `BrickNotTrainable`, `BrickLoss`,
`BrickMetricSingle` and `BrickCollection`) is exercised by the README
notebook but the module itself is not present in the source snapshot, so
every definition below is modelled from the specification of that core
(sections 3, 4.1 and 4.2 of the design document): a named-value mapping
threaded through an ordered list of stage-gated units, each unit reading
its declared inputs, writing its declared outputs, and metric units
accumulating per-stage state drained by `summarize`.

Tensor values are kept opaque: everything is polymorphic in a value type
`V`, and each unit's wrapped computation is an arbitrary function from the
gathered named inputs to a list of output values.
-/

namespace Torchbricks

/-- Modelled from the spec: the closed stage enumeration gating unit
execution (the source's `torchbricks.bricks.Stage`). -/
inductive Stage where
  | TRAIN
  | VALIDATION
  | TEST
  | INFERENCE
  | EXPORT
deriving DecidableEq

/-- Modelled from the spec: the named-value mapping, a finite mapping from
string key to opaque value, represented as an association list whose order
records insertion order. -/
abbrev NamedMap (V : Type) := List (String × V)

/-- One unit invocation's gathered inputs: the keyword-style batch handed to
the opaque computation. -/
abbrev Batch (V : Type) := List (String × V)

/-- Look up a key in a named-value mapping (first occurrence wins; the
operations below keep keys unique). -/
def getVal? {V : Type} : NamedMap V → String → Option V
  | [], _ => none
  | (k', v) :: rest, k => if k' = k then some v else getVal? rest k

/-- The keys of a named-value mapping, in insertion order. -/
def keys {V : Type} (m : NamedMap V) : List String := m.map Prod.fst

/-- Write a key, overwriting an existing binding in place (last-writer-wins)
or appending a fresh one. -/
def setKey {V : Type} : NamedMap V → String → V → NamedMap V
  | [], k, v => [(k, v)]
  | (k', v') :: rest, k, v =>
    if k' = k then (k, v) :: rest else (k', v') :: setKey rest k v

/-- Modelled from the spec: merge a unit's returned outputs into the
accumulated named-value mapping, overwriting existing keys of the same
name. -/
def mergeAll {V : Type} : NamedMap V → NamedMap V → NamedMap V
  | m, [] => m
  | m, (k, v) :: rest => mergeAll (setKey m k v) rest

/-- Modelled from the spec: a unit's declared input keys, or the sentinel
meaning "read everything available" (the source's `input_names='all'`). -/
inductive InputNames where
  | all
  | names (l : List String)

/-- Modelled from the spec: the set of stages a unit is alive in, or the
sentinel meaning all stages (the source's `alive_stages='all'`). -/
inductive AliveStages where
  | all
  | only (l : List Stage)

/-- Whether a stage belongs to an `AliveStages` value. -/
def AliveStages.holds : AliveStages → Stage → Bool
  | .all, _ => true
  | .only l, s => l.contains s

/-- Modelled from the spec: which of a unit's outputs the Collection
classifies as loss outputs (the source's `loss_output_names`, with the
`'all'` sentinel meaning every declared output). -/
inductive LossNames where
  | all
  | names (l : List String)

/-- Modelled from the spec: the error taxonomy of the execution core.
`MissingInput` names the unit and the absent key; `OutputArityMismatch`
names the unit; `DuplicateMetricName` names the colliding metric key. -/
inductive BrickError where
  | MissingInput (unitName : String) (key : String)
  | OutputArityMismatch (unitName : String)
  | DuplicateMetricName (key : String)
deriving DecidableEq

/-- Per-metric-unit accumulator state, keyed by stage: the list of input
batches recorded for each stage since the last reset. -/
abbrev Acc (V : Type) := List (Stage × List (Batch V))

/-- The batches a metric accumulator holds for a stage (empty when none). -/
def accGet {V : Type} : Acc V → Stage → List (Batch V)
  | [], _ => []
  | (s', bs) :: rest, s => if s' = s then bs else accGet rest s

/-- Replace the batches held for one stage. -/
def accSet {V : Type} : Acc V → Stage → List (Batch V) → Acc V
  | [], s, bs => [(s, bs)]
  | (s', bs') :: rest, s, bs =>
    if s' = s then (s, bs) :: rest else (s', bs') :: accSet rest s bs

/-- Record one more batch for a stage. -/
def accAdd {V : Type} (a : Acc V) (s : Stage) (batch : Batch V) : Acc V :=
  accSet a s (accGet a s ++ [batch])

/-- Clear the accumulator state held for one stage, leaving other stages
untouched. -/
def accClear {V : Type} : Acc V → Stage → Acc V
  | [], _ => []
  | (s', bs) :: rest, s =>
    if s' = s then accClear rest s else (s', bs) :: accClear rest s

/-- Modelled from the spec: the atomic wrapped computation unit (the
source's brick base class). `compute` is the opaque externally supplied
computation, invoked keyword-style on the gathered inputs; `finalize` is
the metric drain turning accumulated batches into metric values (unused
for non-metric units); `acc` is the per-stage metric accumulator state. -/
structure Brick (V : Type) where
  input_names : InputNames
  output_names : List String
  alive_stages : AliveStages
  requires_gradient : Bool
  is_metric : Bool
  return_metrics : Bool
  loss_output_names : LossNames
  compute : Batch V → List V
  finalize : List (Batch V) → List V
  acc : Acc V

/-- Gather the declared input keys of unit `n` from the available mapping,
failing with `MissingInput` on the first absent key. -/
def gatherNames {V : Type} (n : String) :
    List String → NamedMap V → Except BrickError (Batch V)
  | [], _ => .ok []
  | k :: ks, m =>
    match getVal? m k with
    | none => .error (.MissingInput n k)
    | some v =>
      match gatherNames n ks m with
      | .error e => .error e
      | .ok rest => .ok ((k, v) :: rest)

/-- Gather a unit's inputs: its declared keys in order, or the whole
available mapping under the read-everything sentinel. -/
def gatherInputs {V : Type} (n : String) :
    InputNames → NamedMap V → Except BrickError (Batch V)
  | .all, m => .ok m
  | .names ns, m => gatherNames n ns m

/-- The first declared input key of a unit that is absent from a mapping,
if any. -/
def firstMissing {V : Type} (ns : List String) (m : NamedMap V) : Option String :=
  ns.find? (fun k => (getVal? m k).isNone)

/-- Modelled from the spec: one unit invocation,
`invoke(available_values, stage)`. If the stage is not among the unit's
alive stages the unit plays dead: it returns an empty output mapping and
the unit itself unchanged, touching neither the computation nor the
accumulator. If alive, the declared inputs are gathered (failing with
`MissingInput` on an absent key), a metric unit records the gathered batch
in its per-stage accumulator and forwards outputs only when
`return_metrics` is set, and otherwise the opaque computation runs and its
outputs are zipped with `output_names`, failing with
`OutputArityMismatch` when the arity differs. The `requires_gradient`
policy is metadata wrapped around the opaque call and does not change the
value-level result. -/
def Brick.invoke {V : Type} (n : String) (b : Brick V) (avail : NamedMap V)
    (stage : Stage) : Except BrickError (NamedMap V × Brick V) :=
  if b.alive_stages.holds stage then
    match gatherInputs n b.input_names avail with
    | .error e => .error e
    | .ok gathered =>
      if b.is_metric then
        let b' : Brick V := { b with acc := accAdd b.acc stage gathered }
        if b.return_metrics then
          let outs := b.compute gathered
          if outs.length = b.output_names.length then
            .ok (b.output_names.zip outs, b')
          else .error (.OutputArityMismatch n)
        else .ok ([], b')
      else
        let outs := b.compute gathered
        if outs.length = b.output_names.length then
          .ok (b.output_names.zip outs, b)
        else .error (.OutputArityMismatch n)
  else .ok ([], b)

/-- The keys of a unit's outputs that the Collection classifies as loss
outputs. -/
def lossKeys {V : Type} (b : Brick V) : List String :=
  match b.loss_output_names with
  | .all => b.output_names
  | .names l => l

/-- The loss entries contributed by one unit invocation: the returned
outputs restricted to the unit's loss output keys. -/
def lossEntries {V : Type} (b : Brick V) (o : NamedMap V) : NamedMap V :=
  o.filter (fun kv => (lossKeys b).contains kv.1)

/-- Modelled from the spec: the Collection's per-invocation pass. Units run
strictly in declaration order with no topological sorting; each alive
unit's outputs are merged into the accumulated mapping (overwriting equal
keys) and its loss outputs are merged into a separate loss mapping; the
first failing unit aborts the whole pass. Returns the full accumulated
mapping, the loss mapping, and the units with their updated metric
accumulators. -/
def runBricks {V : Type} :
    List (String × Brick V) → NamedMap V → NamedMap V → Stage →
    Except BrickError (NamedMap V × NamedMap V × List (String × Brick V))
  | [], avail, lo, _ => .ok (avail, lo, [])
  | (n, b) :: rest, avail, lo, stage =>
    match Brick.invoke n b avail stage with
    | .error e => .error e
    | .ok (o, b') =>
      match runBricks rest (mergeAll avail o) (mergeAll lo (lossEntries b o)) stage with
      | .error e => .error e
      | .ok (aF, loF, bsF) => .ok (aF, loF, (n, b') :: bsF)

/-- Modelled from the spec: the Collection call
`invoke(named_inputs, stage)` (and the value part of `step`): the pass
starts from the caller-supplied mapping and an empty loss mapping and
returns the full accumulated mapping, the named losses, and the updated
units. -/
def collectionInvoke {V : Type} (c : List (String × Brick V))
    (named_inputs : NamedMap V) (stage : Stage) :
    Except BrickError (NamedMap V × NamedMap V × List (String × Brick V)) :=
  runBricks c named_inputs [] stage

/-- Modelled from the spec: `step` additionally reduces the collected loss
outputs by summation into one scalar for the external optimizer. -/
def collectionStep {V : Type} [Add V] (zero : V) (c : List (String × Brick V))
    (named_inputs : NamedMap V) (stage : Stage) :
    Except BrickError (NamedMap V × NamedMap V × V × List (String × Brick V)) :=
  match collectionInvoke c named_inputs stage with
  | .error e => .error e
  | .ok (m, lo, c') => .ok (m, lo, lo.foldl (fun t kv => t + kv.2) zero, c')

/-- Modelled from the spec: `BrickTrainable(model, input_names,
output_names)` built without an explicit `alive_stages` argument: alive at
all stages, parameters in the optimization (`requires_gradient = true`). -/
def BrickTrainable {V : Type} (model : Batch V → List V)
    (inputNames outputNames : List String) : Brick V :=
  { input_names := .names inputNames
    output_names := outputNames
    alive_stages := .all
    requires_gradient := true
    is_metric := false
    return_metrics := false
    loss_output_names := .names []
    compute := model
    finalize := fun _ => []
    acc := [] }

/-- Modelled from the spec: `BrickNotTrainable(model, input_names,
output_names)` built without an explicit `alive_stages` argument: alive at
all stages, parameters excluded from optimization
(`requires_gradient = false`). -/
def BrickNotTrainable {V : Type} (model : Batch V → List V)
    (inputNames outputNames : List String) : Brick V :=
  { input_names := .names inputNames
    output_names := outputNames
    alive_stages := .all
    requires_gradient := false
    is_metric := false
    return_metrics := false
    loss_output_names := .names []
    compute := model
    finalize := fun _ => []
    acc := [] }

/-- Modelled from the spec: `BrickLoss(model, input_names, output_names)`
with its documented defaults: alive at TRAIN, VALIDATION and TEST, and
every declared output classified as a loss output
(`loss_output_names='all'`). -/
def BrickLoss {V : Type} (model : Batch V → List V)
    (inputNames outputNames : List String) : Brick V :=
  { input_names := .names inputNames
    output_names := outputNames
    alive_stages := .only [.TRAIN, .VALIDATION, .TEST]
    requires_gradient := true
    is_metric := false
    return_metrics := false
    loss_output_names := .all
    compute := model
    finalize := fun _ => []
    acc := [] }

/-- Modelled from the spec: a `BrickLoss` with an explicitly supplied
`alive_stages` list (as in the README's
`BrickLoss(..., alive_stages=[Stage.TRAIN, ...])`). -/
def BrickLossAlive {V : Type} (model : Batch V → List V)
    (inputNames outputNames : List String) (alive : List Stage) : Brick V :=
  { BrickLoss model inputNames outputNames with alive_stages := .only alive }

/-- Modelled from the spec: `BrickMetricSingle(metric, input_names)` with
its documented defaults: alive at TRAIN, VALIDATION and TEST, records its
gathered inputs into a per-stage accumulator on each call, returns no
named outputs (`return_metrics = false`), and drains through `finalize`
into a single value keyed by the metric name. -/
def BrickMetricSingle {V : Type} (metricName : String)
    (fin : List (Batch V) → V) (inputNames : List String) : Brick V :=
  { input_names := .names inputNames
    output_names := [metricName]
    alive_stages := .only [.TRAIN, .VALIDATION, .TEST]
    requires_gradient := false
    is_metric := true
    return_metrics := false
    loss_output_names := .names []
    compute := fun _ => []
    finalize := fun bs => [fin bs]
    acc := [] }

/-- Whether a unit will contribute to a `summarize(stage, ...)` call: it is
a metric unit whose accumulator holds state for the stage. -/
def active {V : Type} (b : Brick V) (s : Stage) : Bool :=
  b.is_metric && !(accGet b.acc s).isEmpty

/-- Whether no unit of the collection holds metric state for the stage
(true in particular before any invocation for that stage). -/
def freshFor {V : Type} (c : List (String × Brick V)) (s : Stage) : Bool :=
  c.all (fun p => !(active p.2 s))

/-- Merge drained metric entries into the summary mapping, failing with
`DuplicateMetricName` when two units contribute the same key. -/
def mergeNoDup {V : Type} : NamedMap V → List (String × V) → Except BrickError (NamedMap V)
  | m, [] => .ok m
  | m, (k, v) :: rest =>
    if (keys m).contains k then .error (.DuplicateMetricName k)
    else mergeNoDup (m ++ [(k, v)]) rest

/-- Modelled from the spec: the worker behind `summarize(stage, reset)`.
Every metric unit whose accumulator holds state for the stage is drained
through its `finalize` into entries keyed by its metric names, merged into
one flat mapping with duplicate detection; with `reset = true` the drained
unit's accumulator state for that stage is cleared, otherwise the unit is
returned untouched. Units holding no state for the stage contribute
nothing and are returned untouched. -/
def summarizeAux {V : Type} :
    List (String × Brick V) → NamedMap V → Stage → Bool →
    Except BrickError (NamedMap V × List (String × Brick V))
  | [], accm, _, _ => .ok (accm, [])
  | (n, b) :: rest, accm, stage, reset =>
    if active b stage then
      match mergeNoDup accm (b.output_names.zip (b.finalize (accGet b.acc stage))) with
      | .error e => .error e
      | .ok accm' =>
        let b' : Brick V :=
          match reset with
          | true => { b with acc := accClear b.acc stage }
          | false => b
        match summarizeAux rest accm' stage reset with
        | .error e => .error e
        | .ok (mfin, rest') => .ok (mfin, (n, b') :: rest')
    else
      match summarizeAux rest accm stage reset with
      | .error e => .error e
      | .ok (mfin, rest') => .ok (mfin, (n, b) :: rest')

/-- Modelled from the spec: `summarize(stage, reset)` over a collection. -/
def summarize {V : Type} (c : List (String × Brick V)) (stage : Stage)
    (reset : Bool) : Except BrickError (NamedMap V × List (String × Brick V)) :=
  summarizeAux c [] stage reset

/-- Modelled from the spec: the construction-time shape of a Collection
entry, either a unit or a nested group of named entries. -/
inductive BrickTree (V : Type) where
  | leaf : Brick V → BrickTree V
  | node : List (String × BrickTree V) → BrickTree V

/-- Modelled from the spec: recursive depth-first flattening of a nested
Collection into the single-level registry the pass executes, with nesting
recorded only in the dot-joined unit names used for metric and parameter
namespacing. -/
def flattenForest {V : Type} : String → List (String × BrickTree V) → List (String × Brick V)
  | _, [] => []
  | q, (nm, .leaf b) :: rest => (q ++ nm, b) :: flattenForest q rest
  | q, (nm, .node f) :: rest => flattenForest (q ++ nm ++ ".") f ++ flattenForest q rest

/-- Modelled from the spec: `BrickCollection` construction — flatten the
possibly nested entry tree into the flat ordered unit registry. -/
def BrickCollection {V : Type} (f : List (String × BrickTree V)) : List (String × Brick V) :=
  flattenForest "" f

/-- The data-flow part of a pass result: the accumulated named-value
mapping and the named losses on success, dropping the updated units and
collapsing failures. -/
def dataPart {V : Type} (r : Except BrickError (NamedMap V × NamedMap V × List (String × Brick V))) :
    Option (NamedMap V × NamedMap V) :=
  r.toOption.map (fun x => (x.1, x.2.1))

/-- A unit with its metric accumulator state erased: the invocation-
independent part of a unit (its parameters and wiring). -/
def eraseAcc {V : Type} (b : Brick V) : Brick V := { b with acc := [] }

/-- A unit invocation result with the accumulator state of the updated
unit erased. -/
def invokeProj {V : Type} (r : Except BrickError (NamedMap V × Brick V)) :
    Except BrickError (NamedMap V × Brick V) :=
  r.map (fun p => (p.1, eraseAcc p.2))

/-- Whether an alive unit forwards its declared outputs into the
named-value mapping (all units except metric units with
`return_metrics = false`). -/
def forwards {V : Type} (b : Brick V) : Bool :=
  !b.is_metric || b.return_metrics

/-- Modelled from the spec: the mutable-store rendering of an invocation,
used to state the frame property that a call never touches the caller's
mapping. A store is a sequence of named-value-mapping cells addressed by
index; the caller's mapping lives in one cell and each invocation
allocates a fresh cell for its accumulated values. -/
structure Store (V : Type) where
  cells : List (NamedMap V)

/-- Read a store cell (empty mapping when out of range). -/
def cellGet {V : Type} : List (NamedMap V) → Nat → NamedMap V
  | [], _ => []
  | m :: _, 0 => m
  | _ :: rest, n + 1 => cellGet rest n

/-- Overwrite a store cell (no-op when out of range). -/
def cellSet {V : Type} : List (NamedMap V) → Nat → NamedMap V → List (NamedMap V)
  | [], _, _ => []
  | _ :: rest, 0, m => m :: rest
  | x :: rest, n + 1, m => x :: cellSet rest n m

/-- Read one cell of a store. -/
def Store.read {V : Type} (st : Store V) (i : Nat) : NamedMap V :=
  cellGet st.cells i

/-- Write one cell of a store. -/
def Store.write {V : Type} (st : Store V) (i : Nat) (m : NamedMap V) : Store V :=
  ⟨cellSet st.cells i m⟩

/-- Append a fresh cell holding `m`, returning the new store and the new
cell's index. -/
def Store.alloc {V : Type} (st : Store V) (m : NamedMap V) : Store V × Nat :=
  (⟨st.cells ++ [m]⟩, st.cells.length)

/-- Modelled from the spec: the per-invocation pass with the accumulated
named-value mapping held in a store cell that each unit's merge mutates in
place. The store is returned even on failure (metric side effects before
a failing unit are not rolled back). -/
def runPassStore {V : Type} :
    List (String × Brick V) → Store V → Nat → NamedMap V → Stage →
    Store V × Except BrickError (NamedMap V × List (String × Brick V))
  | [], st, _, lo, _ => (st, .ok (lo, []))
  | (n, b) :: rest, st, cid, lo, stage =>
    match Brick.invoke n b (st.read cid) stage with
    | .error e => (st, .error e)
    | .ok (o, b') =>
      match runPassStore rest (st.write cid (mergeAll (st.read cid) o)) cid
          (mergeAll lo (lossEntries b o)) stage with
      | (stF, .error e) => (stF, .error e)
      | (stF, .ok (loF, bsF)) => (stF, .ok (loF, (n, b') :: bsF))

/-- Modelled from the spec: a Collection call acting on a store. The
caller's mapping is read from its cell, a fresh cell seeded from it is
allocated, and the pass runs on the fresh cell only. Returns the final
store, the working cell's index, and the pass result. -/
def callOnStore {V : Type} (c : List (String × Brick V)) (st : Store V)
    (callerId : Nat) (stage : Stage) :
    Store V × Nat × Except BrickError (NamedMap V × List (String × Brick V)) :=
  let alloc := st.alloc (st.read callerId)
  let run := runPassStore c alloc.1 alloc.2 [] stage
  (run.1, alloc.2, run.2)

/-! Concrete example units and collections, mirroring the README's
preprocessor / model / classifier / loss / metric wiring with `Nat` as the
opaque value type. -/

/-- The README's identity-like preprocessor applied to the `raw` input. -/
def dmPre : Batch Nat → List Nat := fun g => [(getVal? g "raw").getD 0]

/-- A tiny trainable computation reading `processed`. -/
def dmHead : Batch Nat → List Nat := fun g => [(getVal? g "processed").getD 0 + 1]

/-- An opaque loss computation over `logits` and `targets`. -/
def dmLossFn : Batch Nat → List Nat :=
  fun g => [(getVal? g "logits").getD 0 + (getVal? g "targets").getD 0]

/-- A counting metric: number of recorded batches. -/
def dmCount : List (Batch Nat) → Nat := fun bs => bs.length

/-- Scenario A: Frozen raw -> processed followed by Trainable processed -> y. -/
def dmAColl : List (String × Brick Nat) :=
  [("preprocessor", BrickNotTrainable dmPre ["raw"] ["processed"]),
   ("head", BrickTrainable dmHead ["processed"] ["y"])]

/-- Scenario A caller input. -/
def dmAIn : NamedMap Nat := [("raw", 8)]

/-- Scenario A full accumulated output mapping. -/
def dmAOut : NamedMap Nat := [("raw", 8), ("processed", 8), ("y", 9)]

/-- Scenario B's loss unit, alive only at TRAIN. -/
def dmLossBrick : Brick Nat :=
  BrickLossAlive dmLossFn ["logits", "targets"] ["loss_ce"] [.TRAIN]

/-- Scenario B: preprocessor, trainable head producing logits, loss alive
only at TRAIN. -/
def dmBColl : List (String × Brick Nat) :=
  [("preprocessor", BrickNotTrainable dmPre ["raw"] ["processed"]),
   ("head", BrickTrainable dmHead ["processed"] ["logits"]),
   ("loss", dmLossBrick)]

/-- Scenario B inference-time input. -/
def dmBInfIn : NamedMap Nat := [("raw", 4)]

/-- Scenario B inference-time accumulated output (no loss key). -/
def dmBInfOut : NamedMap Nat := [("raw", 4), ("processed", 4), ("logits", 5)]

/-- Scenario B train-time input, with targets present. -/
def dmBTrIn : NamedMap Nat := [("raw", 4), ("targets", 7)]

/-- Scenario B train-time accumulated output, with the loss key. -/
def dmBTrOut : NamedMap Nat :=
  [("raw", 4), ("targets", 7), ("processed", 4), ("logits", 5), ("loss_ce", 12)]

/-- Scenario B train-time named losses. -/
def dmBTrLoss : NamedMap Nat := [("loss_ce", 12)]

/-- A metric unit counting its calls on input `x`. -/
def dmMetric : Brick Nat := BrickMetricSingle "count" dmCount ["x"]

/-- A collection holding only the counting metric, no state recorded. -/
def dmMColl : List (String × Brick Nat) := [("counter", dmMetric)]

/-- Input for the metric collection. -/
def dmMIn : NamedMap Nat := [("x", 1)]

/-- The counting metric after one TRAIN invocation on `dmMIn`. -/
def dmMetric1 : Brick Nat := { dmMetric with acc := [(Stage.TRAIN, [[("x", 1)]])] }

/-- The metric collection after one TRAIN invocation. -/
def dmMColl1 : List (String × Brick Nat) := [("counter", dmMetric1)]

/-- A one-cell store holding the caller's mapping. -/
def dmStore : Store Nat := ⟨[[("raw", 8)]]⟩

/-! Key-membership lemmas for the named-value mapping. -/

theorem mem_keys_setKey_of_mem {V : Type} (m : NamedMap V) (k j : String) (v : V) :
    j ∈ keys m → j ∈ keys (setKey m k v) := by
  induction m with
  | nil => intro h; simp [keys] at h
  | cons kv rest ih =>
    obtain ⟨k', v'⟩ := kv
    intro h
    simp only [keys, List.map_cons, List.mem_cons] at h
    by_cases hk : k' = k
    · simp only [setKey, if_pos hk, keys, List.map_cons, List.mem_cons]
      rcases h with h | h
      · exact Or.inl (h.trans hk)
      · exact Or.inr h
    · simp only [setKey, if_neg hk, keys, List.map_cons, List.mem_cons]
      rcases h with h | h
      · exact Or.inl h
      · exact Or.inr (ih h)

theorem mem_keys_setKey_self {V : Type} (m : NamedMap V) (k : String) (v : V) :
    k ∈ keys (setKey m k v) := by
  induction m with
  | nil => simp [setKey, keys]
  | cons kv rest ih =>
    obtain ⟨k', v'⟩ := kv
    by_cases hk : k' = k
    · simp [setKey, if_pos hk, keys]
    · simp only [setKey, if_neg hk, keys, List.map_cons, List.mem_cons]
      exact Or.inr ih

theorem mem_keys_mergeAll_left {V : Type} (o : NamedMap V) :
    ∀ (m : NamedMap V) (j : String), j ∈ keys m → j ∈ keys (mergeAll m o) := by
  induction o with
  | nil => intro m j h; exact h
  | cons kv rest ih =>
    obtain ⟨k, v⟩ := kv
    intro m j h
    exact ih (setKey m k v) j (mem_keys_setKey_of_mem m k j v h)

theorem mem_keys_mergeAll_right {V : Type} (o : NamedMap V) :
    ∀ (m : NamedMap V) (j : String), j ∈ keys o → j ∈ keys (mergeAll m o) := by
  induction o with
  | nil => intro m j h; simp [keys] at h
  | cons kv rest ih =>
    obtain ⟨k, v⟩ := kv
    intro m j h
    simp only [keys, List.map_cons, List.mem_cons] at h
    rcases h with h | h
    · subst h
      exact mem_keys_mergeAll_left rest (setKey m j v) j (mem_keys_setKey_self m j v)
    · exact ih (setKey m k v) j h

theorem accGet_accClear {V : Type} (a : Acc V) (s : Stage) :
    accGet (accClear a s) s = [] := by
  induction a with
  | nil => rfl
  | cons p rest ih =>
    obtain ⟨s', bs⟩ := p
    by_cases h : s' = s
    · simp [accClear, if_pos h, ih]
    · simp [accClear, if_neg h, accGet, ih, h]

/-! Lemmas about one unit invocation. -/

theorem invoke_out_keys {V : Type} {n : String} {b : Brick V} {a : NamedMap V}
    {s : Stage} {o : NamedMap V} {b' : Brick V}
    (h : Brick.invoke n b a s = .ok (o, b'))
    (halive : b.alive_stages.holds s = true) (hf : forwards b = true) :
    keys o = b.output_names := by
  unfold Brick.invoke at h
  rw [halive, if_pos rfl] at h
  cases hg : gatherInputs n b.input_names a with
  | error e => rw [hg] at h; simp at h
  | ok g =>
    rw [hg] at h
    simp only [] at h
    by_cases hm : b.is_metric = true
    · have hrm : b.return_metrics = true := by
        unfold forwards at hf
        rw [hm] at hf
        simpa using hf
      rw [if_pos hm, if_pos hrm] at h
      by_cases hl : (b.compute g).length = b.output_names.length
      · rw [if_pos hl] at h
        simp only [Except.ok.injEq, Prod.mk.injEq] at h
        rw [← h.1]
        exact List.map_fst_zip _ _ (le_of_eq hl.symm)
      · rw [if_neg hl] at h; simp at h
    · rw [if_neg hm] at h
      by_cases hl : (b.compute g).length = b.output_names.length
      · rw [if_pos hl] at h
        simp only [Except.ok.injEq, Prod.mk.injEq] at h
        rw [← h.1]
        exact List.map_fst_zip _ _ (le_of_eq hl.symm)
      · rw [if_neg hl] at h; simp at h

theorem invoke_dead {V : Type} (n : String) (b : Brick V) (a : NamedMap V)
    (s : Stage) (h : b.alive_stages.holds s = false) :
    Brick.invoke n b a s = .ok ([], b) := by
  unfold Brick.invoke
  rw [h]
  exact if_neg (by simp)

theorem invoke_preserves_eraseAcc {V : Type} {n : String} {b : Brick V}
    {a : NamedMap V} {s : Stage} {o : NamedMap V} {b' : Brick V}
    (h : Brick.invoke n b a s = .ok (o, b')) : eraseAcc b' = eraseAcc b := by
  unfold Brick.invoke at h
  by_cases halive : b.alive_stages.holds s = true
  · rw [if_pos halive] at h
    cases hg : gatherInputs n b.input_names a with
    | error e => rw [hg] at h; simp at h
    | ok g =>
      rw [hg] at h
      simp only [] at h
      by_cases hm : b.is_metric = true
      · rw [if_pos hm] at h
        by_cases hrm : b.return_metrics = true
        · rw [if_pos hrm] at h
          by_cases hl : (b.compute g).length = b.output_names.length
          · rw [if_pos hl] at h
            simp only [Except.ok.injEq, Prod.mk.injEq] at h
            rw [← h.2]
            rfl
          · rw [if_neg hl] at h; simp at h
        · rw [if_neg hrm] at h
          simp only [Except.ok.injEq, Prod.mk.injEq] at h
          rw [← h.2]
          rfl
      · rw [if_neg hm] at h
        by_cases hl : (b.compute g).length = b.output_names.length
        · rw [if_pos hl] at h
          simp only [Except.ok.injEq, Prod.mk.injEq] at h
          rw [← h.2]
        · rw [if_neg hl] at h; simp at h
  · rw [if_neg halive] at h
    simp only [Except.ok.injEq, Prod.mk.injEq] at h
    rw [← h.2]

theorem invoke_acc_congr {V : Type} (n : String) (b1 b2 : Brick V)
    (a : NamedMap V) (s : Stage) (h : eraseAcc b1 = eraseAcc b2) :
    invokeProj (Brick.invoke n b1 a s) = invokeProj (Brick.invoke n b2 a s) := by
  obtain ⟨i1, o1, al1, rg1, im1, rm1, ln1, cp1, fn1, ac1⟩ := b1
  obtain ⟨i2, o2, al2, rg2, im2, rm2, ln2, cp2, fn2, ac2⟩ := b2
  simp only [eraseAcc, Brick.mk.injEq, and_true] at h
  obtain ⟨h1, h2, h3, h4, h5, h6, h7, h8, h9⟩ := h
  subst h1; subst h2; subst h3; subst h4; subst h5
  subst h6; subst h7; subst h8; subst h9
  unfold Brick.invoke
  simp only []
  by_cases halive : AliveStages.holds al1 s = true
  · rw [if_pos halive, if_pos halive]
    cases hg : gatherInputs n i1 a with
    | error e => rfl
    | ok g =>
      simp only []
      by_cases hm : im1 = true
      · rw [if_pos hm, if_pos hm]
        by_cases hrm : rm1 = true
        · rw [if_pos hrm, if_pos hrm]
          by_cases hl : (cp1 g).length = o1.length
          · rw [if_pos hl, if_pos hl]
            rfl
          · rw [if_neg hl, if_neg hl]
        · rw [if_neg hrm, if_neg hrm]
          rfl
      · rw [if_neg hm, if_neg hm]
        by_cases hl : (cp1 g).length = o1.length
        · rw [if_pos hl, if_pos hl]
          rfl
        · rw [if_neg hl, if_neg hl]
  · rw [if_neg halive, if_neg halive]
    rfl

theorem gatherNames_name_congr {V : Type} (n n' : String) (ns : List String)
    (m : NamedMap V) :
    (gatherNames n ns m).toOption = (gatherNames n' ns m).toOption := by
  induction ns with
  | nil => rfl
  | cons k ks ih =>
    unfold gatherNames
    cases hv : getVal? m k with
    | none => rfl
    | some v =>
      cases h1 : gatherNames n ks m with
      | error e =>
        cases h2 : gatherNames n' ks m with
        | error e' => rfl
        | ok r => rw [h1, h2] at ih; simp [Except.toOption] at ih
      | ok r =>
        cases h2 : gatherNames n' ks m with
        | error e' => rw [h1, h2] at ih; simp [Except.toOption] at ih
        | ok r' =>
          rw [h1, h2] at ih
          simp only [Except.toOption, Option.some.injEq] at ih
          subst ih
          rfl

theorem invoke_name_congr {V : Type} (n n' : String) (b : Brick V)
    (a : NamedMap V) (s : Stage) :
    (Brick.invoke n b a s).toOption = (Brick.invoke n' b a s).toOption := by
  unfold Brick.invoke
  by_cases halive : b.alive_stages.holds s = true
  · rw [if_pos halive, if_pos halive]
    have hgather : (gatherInputs n b.input_names a).toOption =
        (gatherInputs n' b.input_names a).toOption := by
      cases hi : b.input_names with
      | all => rfl
      | names ns => exact gatherNames_name_congr n n' ns a
    cases hg1 : gatherInputs n b.input_names a with
    | error e =>
      cases hg2 : gatherInputs n' b.input_names a with
      | error e' => rfl
      | ok g => rw [hg1, hg2] at hgather; simp [Except.toOption] at hgather
    | ok g =>
      cases hg2 : gatherInputs n' b.input_names a with
      | error e' => rw [hg1, hg2] at hgather; simp [Except.toOption] at hgather
      | ok g' =>
        rw [hg1, hg2] at hgather
        simp only [Except.toOption, Option.some.injEq] at hgather
        subst hgather
        simp only []
        by_cases hm : b.is_metric = true
        · rw [if_pos hm, if_pos hm]
          by_cases hrm : b.return_metrics = true
          · rw [if_pos hrm, if_pos hrm]
            by_cases hl : (b.compute g).length = b.output_names.length
            · rw [if_pos hl, if_pos hl]
            · rw [if_neg hl, if_neg hl]; rfl
          · rw [if_neg hrm, if_neg hrm]
        · rw [if_neg hm, if_neg hm]
          by_cases hl : (b.compute g).length = b.output_names.length
          · rw [if_pos hl, if_pos hl]
          · rw [if_neg hl, if_neg hl]; rfl
  · rw [if_neg halive, if_neg halive]

/-- One unfolding step of the data-flow part of the pass. -/
theorem dataPart_runBricks_cons {V : Type} (n : String) (b : Brick V)
    (rest : List (String × Brick V)) (a lo : NamedMap V) (s : Stage) :
    dataPart (runBricks ((n, b) :: rest) a lo s) =
      match Brick.invoke n b a s with
      | .error _ => none
      | .ok (o, _) =>
        dataPart (runBricks rest (mergeAll a o) (mergeAll lo (lossEntries b o)) s) := by
  cases hinv : Brick.invoke n b a s with
  | error e => simp [runBricks, hinv, dataPart, Except.toOption]
  | ok p =>
    obtain ⟨o, b'⟩ := p
    cases hr : runBricks rest (mergeAll a o) (mergeAll lo (lossEntries b o)) s with
    | error e => simp [runBricks, hinv, hr, dataPart, Except.toOption]
    | ok q => simp [runBricks, hinv, hr, dataPart, Except.toOption]

/-! Lemmas about the Collection pass. -/

theorem runBricks_keys {V : Type} (c : List (String × Brick V)) :
    ∀ (a lo m loF : NamedMap V) (stage : Stage) (c' : List (String × Brick V)),
      runBricks c a lo stage = .ok (m, loF, c') →
      (∀ j, j ∈ keys a → j ∈ keys m) ∧
      (∀ n b, (n, b) ∈ c → b.alive_stages.holds stage = true → forwards b = true →
        ∀ k, k ∈ b.output_names → k ∈ keys m) := by
  induction c with
  | nil =>
    intro a lo m loF stage c' h
    simp only [runBricks, Except.ok.injEq, Prod.mk.injEq] at h
    obtain ⟨ha, -, -⟩ := h
    subst ha
    exact ⟨fun j hj => hj, fun n b hb => absurd hb (List.not_mem_nil _)⟩
  | cons p rest ih =>
    obtain ⟨n0, b0⟩ := p
    intro a lo m loF stage c' h
    simp only [runBricks] at h
    cases hinv : Brick.invoke n0 b0 a stage with
    | error e => rw [hinv] at h; simp at h
    | ok q =>
      obtain ⟨o, b0'⟩ := q
      rw [hinv] at h
      simp only [] at h
      cases hrun : runBricks rest (mergeAll a o) (mergeAll lo (lossEntries b0 o)) stage with
      | error e => rw [hrun] at h; simp at h
      | ok t =>
        obtain ⟨aF, loF', bsF⟩ := t
        rw [hrun] at h
        simp only [Except.ok.injEq, Prod.mk.injEq] at h
        obtain ⟨hm, -, -⟩ := h
        subst hm
        obtain ⟨ih1, ih2⟩ :=
          ih (mergeAll a o) (mergeAll lo (lossEntries b0 o)) aF loF' stage bsF hrun
        refine ⟨fun j hj => ih1 j (mem_keys_mergeAll_left o a j hj), ?_⟩
        intro n b hb halive hf k hk
        rcases List.mem_cons.mp hb with hb | hb
        · injection hb with hn hbeq
          subst hbeq
          have hko : keys o = b.output_names := invoke_out_keys hinv halive hf
          rw [← hko] at hk
          exact ih1 k (mem_keys_mergeAll_right o a k hk)
        · exact ih2 n b hb halive hf k hk

theorem runBricks_preserves_eraseAcc {V : Type} (c : List (String × Brick V)) :
    ∀ (a lo m loF : NamedMap V) (stage : Stage) (c' : List (String × Brick V)),
      runBricks c a lo stage = .ok (m, loF, c') →
      c'.map (fun p => (p.1, eraseAcc p.2)) = c.map (fun p => (p.1, eraseAcc p.2)) := by
  induction c with
  | nil =>
    intro a lo m loF stage c' h
    simp only [runBricks, Except.ok.injEq, Prod.mk.injEq] at h
    rw [← h.2.2]
  | cons p rest ih =>
    obtain ⟨n0, b0⟩ := p
    intro a lo m loF stage c' h
    simp only [runBricks] at h
    cases hinv : Brick.invoke n0 b0 a stage with
    | error e => rw [hinv] at h; simp at h
    | ok q =>
      obtain ⟨o, b0'⟩ := q
      rw [hinv] at h
      simp only [] at h
      cases hrun : runBricks rest (mergeAll a o) (mergeAll lo (lossEntries b0 o)) stage with
      | error e => rw [hrun] at h; simp at h
      | ok t =>
        obtain ⟨aF, loF', bsF⟩ := t
        rw [hrun] at h
        simp only [Except.ok.injEq, Prod.mk.injEq] at h
        rw [← h.2.2]
        simp only [List.map_cons]
        rw [invoke_preserves_eraseAcc hinv,
          ih (mergeAll a o) (mergeAll lo (lossEntries b0 o)) aF loF' stage bsF hrun]

theorem runBricks_acc_congr {V : Type} (l1 : List (String × Brick V)) :
    ∀ (l2 : List (String × Brick V)) (a lo : NamedMap V) (s : Stage),
      l1.map (fun p => (p.1, eraseAcc p.2)) = l2.map (fun p => (p.1, eraseAcc p.2)) →
      dataPart (runBricks l1 a lo s) = dataPart (runBricks l2 a lo s) := by
  induction l1 with
  | nil =>
    intro l2 a lo s h
    cases l2 with
    | nil => rfl
    | cons q t => simp at h
  | cons p t1 ih =>
    obtain ⟨n1, b1⟩ := p
    intro l2 a lo s h
    cases l2 with
    | nil => simp at h
    | cons q t2 =>
      obtain ⟨n2, b2⟩ := q
      simp only [List.map_cons, List.cons.injEq, Prod.mk.injEq] at h
      obtain ⟨⟨hn, hb⟩, ht⟩ := h
      subst hn
      rw [dataPart_runBricks_cons, dataPart_runBricks_cons]
      have hip := invoke_acc_congr n1 b1 b2 a s hb
      cases hinv1 : Brick.invoke n1 b1 a s with
      | error e =>
        cases hinv2 : Brick.invoke n1 b2 a s with
        | error e' => rfl
        | ok q2 => rw [hinv1, hinv2] at hip; simp [invokeProj, Except.map] at hip
      | ok q1 =>
        obtain ⟨o1, b1'⟩ := q1
        cases hinv2 : Brick.invoke n1 b2 a s with
        | error e' => rw [hinv1, hinv2] at hip; simp [invokeProj, Except.map] at hip
        | ok q2 =>
          obtain ⟨o2, b2'⟩ := q2
          rw [hinv1, hinv2] at hip
          simp only [invokeProj, Except.map, Except.ok.injEq, Prod.mk.injEq] at hip
          obtain ⟨ho, -⟩ := hip
          subst ho
          have hln := congrArg Brick.loss_output_names hb
          have hon := congrArg Brick.output_names hb
          simp only [eraseAcc] at hln hon
          have hloss : lossEntries b1 o1 = lossEntries b2 o1 := by
            simp [lossEntries, lossKeys, hln, hon]
          simp only []
          rw [hloss]
          exact ih t2 (mergeAll a o1) (mergeAll lo (lossEntries b2 o1)) s ht

theorem runBricks_name_congr {V : Type} (l1 : List (String × Brick V)) :
    ∀ (l2 : List (String × Brick V)) (a lo : NamedMap V) (s : Stage),
      l1.map Prod.snd = l2.map Prod.snd →
      dataPart (runBricks l1 a lo s) = dataPart (runBricks l2 a lo s) := by
  induction l1 with
  | nil =>
    intro l2 a lo s h
    cases l2 with
    | nil => rfl
    | cons q t => simp at h
  | cons p t1 ih =>
    obtain ⟨n1, b1⟩ := p
    intro l2 a lo s h
    cases l2 with
    | nil => simp at h
    | cons q t2 =>
      obtain ⟨n2, b2⟩ := q
      simp only [List.map_cons, List.cons.injEq] at h
      obtain ⟨hb, ht⟩ := h
      subst hb
      rw [dataPart_runBricks_cons, dataPart_runBricks_cons]
      have hip := invoke_name_congr n1 n2 b1 a s
      cases hinv1 : Brick.invoke n1 b1 a s with
      | error e =>
        cases hinv2 : Brick.invoke n2 b1 a s with
        | error e' => rfl
        | ok q2 => rw [hinv1, hinv2] at hip; simp [Except.toOption] at hip
      | ok q1 =>
        obtain ⟨o1, b1'⟩ := q1
        cases hinv2 : Brick.invoke n2 b1 a s with
        | error e' => rw [hinv1, hinv2] at hip; simp [Except.toOption] at hip
        | ok q2 =>
          obtain ⟨o2, b2'⟩ := q2
          rw [hinv1, hinv2] at hip
          simp only [Except.toOption, Option.some.injEq, Prod.mk.injEq] at hip
          obtain ⟨ho, -⟩ := hip
          subst ho
          simp only []
          exact ih t2 (mergeAll a o1) (mergeAll lo (lossEntries b1 o1)) s ht

theorem runBricks_append {V : Type} (l1 : List (String × Brick V)) :
    ∀ (l2 : List (String × Brick V)) (a lo : NamedMap V) (s : Stage),
      runBricks (l1 ++ l2) a lo s =
        match runBricks l1 a lo s with
        | .error e => .error e
        | .ok (a1, lo1, bs1) =>
          match runBricks l2 a1 lo1 s with
          | .error e => .error e
          | .ok (a2, lo2, bs2) => .ok (a2, lo2, bs1 ++ bs2) := by
  induction l1 with
  | nil =>
    intro l2 a lo s
    simp only [List.nil_append, runBricks]
    cases hr : runBricks l2 a lo s with
    | error e => rfl
    | ok t => obtain ⟨a2, lo2, bs2⟩ := t; simp
  | cons p t1 ih =>
    obtain ⟨n0, b0⟩ := p
    intro l2 a lo s
    simp only [List.cons_append, runBricks]
    cases hinv : Brick.invoke n0 b0 a s with
    | error e => rfl
    | ok q =>
      obtain ⟨o, b0'⟩ := q
      simp only [List.append_eq]
      rw [ih]
      cases hr1 : runBricks t1 (mergeAll a o) (mergeAll lo (lossEntries b0 o)) s with
      | error e => rfl
      | ok t =>
        obtain ⟨a1, lo1, bs1⟩ := t
        simp only []
        cases hr2 : runBricks l2 a1 lo1 s with
        | error e => rfl
        | ok t2 => obtain ⟨a2, lo2, bs2⟩ := t2; simp

theorem gatherNames_of_firstMissing {V : Type} (n : String) (ns : List String)
    (m : NamedMap V) (k : String) (h : firstMissing ns m = some k) :
    gatherNames n ns m = .error (.MissingInput n k) := by
  induction ns with
  | nil => simp [firstMissing] at h
  | cons k0 ks ih =>
    unfold firstMissing at h
    simp only [List.find?] at h
    by_cases hv : (getVal? m k0).isNone = true
    · rw [hv] at h
      simp only [Option.some.injEq] at h
      subst h
      have hnone : getVal? m k0 = none := Option.isNone_iff_eq_none.mp hv
      unfold gatherNames
      rw [hnone]
    · rw [Bool.not_eq_true] at hv
      rw [hv] at h
      simp only [] at h
      cases hv0 : getVal? m k0 with
      | none => rw [hv0] at hv; simp at hv
      | some v =>
        unfold gatherNames
        rw [hv0, ih h]

theorem invoke_missing {V : Type} (n : String) (b : Brick V) (a : NamedMap V)
    (s : Stage) (ns : List String) (k : String)
    (halive : b.alive_stages.holds s = true) (hnames : b.input_names = .names ns)
    (hmiss : firstMissing ns a = some k) :
    Brick.invoke n b a s = .error (.MissingInput n k) := by
  unfold Brick.invoke
  rw [if_pos halive, hnames]
  have hg : gatherInputs n (InputNames.names ns) a = .error (.MissingInput n k) := by
    simp only [gatherInputs]
    exact gatherNames_of_firstMissing n ns a k hmiss
  rw [hg]

/-! Lemmas about summarize. -/

theorem summarizeAux_noreset {V : Type} (c : List (String × Brick V)) :
    ∀ (accm m : NamedMap V) (s : Stage) (c' : List (String × Brick V)),
      summarizeAux c accm s false = .ok (m, c') → c' = c := by
  induction c with
  | nil =>
    intro accm m s c' h
    simp only [summarizeAux, Except.ok.injEq, Prod.mk.injEq] at h
    exact h.2.symm
  | cons p rest ih =>
    obtain ⟨n, b⟩ := p
    intro accm m s c' h
    simp only [summarizeAux] at h
    by_cases ha : active b s = true
    · rw [if_pos ha] at h
      cases hmg : mergeNoDup accm (b.output_names.zip (b.finalize (accGet b.acc s))) with
      | error e => rw [hmg] at h; simp at h
      | ok accm' =>
        rw [hmg] at h
        simp only [] at h
        cases hrec : summarizeAux rest accm' s false with
        | error e => rw [hrec] at h; simp at h
        | ok t =>
          obtain ⟨mfin, rest'⟩ := t
          rw [hrec] at h
          simp only [Except.ok.injEq, Prod.mk.injEq] at h
          rw [← h.2, ih accm' mfin s rest' hrec]
    · rw [if_neg ha] at h
      cases hrec : summarizeAux rest accm s false with
      | error e => rw [hrec] at h; simp at h
      | ok t =>
        obtain ⟨mfin, rest'⟩ := t
        rw [hrec] at h
        simp only [Except.ok.injEq, Prod.mk.injEq] at h
        rw [← h.2, ih accm mfin s rest' hrec]

theorem summarizeAux_reset_fresh {V : Type} (c : List (String × Brick V)) :
    ∀ (accm m : NamedMap V) (s : Stage) (c' : List (String × Brick V)),
      summarizeAux c accm s true = .ok (m, c') → freshFor c' s = true := by
  induction c with
  | nil =>
    intro accm m s c' h
    simp only [summarizeAux, Except.ok.injEq, Prod.mk.injEq] at h
    rw [← h.2]
    rfl
  | cons p rest ih =>
    obtain ⟨n, b⟩ := p
    intro accm m s c' h
    simp only [summarizeAux] at h
    by_cases ha : active b s = true
    · rw [if_pos ha] at h
      cases hmg : mergeNoDup accm (b.output_names.zip (b.finalize (accGet b.acc s))) with
      | error e => rw [hmg] at h; simp at h
      | ok accm' =>
        rw [hmg] at h
        simp only [] at h
        cases hrec : summarizeAux rest accm' s true with
        | error e => rw [hrec] at h; simp at h
        | ok t =>
          obtain ⟨mfin, rest'⟩ := t
          rw [hrec] at h
          simp only [Except.ok.injEq, Prod.mk.injEq] at h
          rw [← h.2]
          simp only [freshFor, List.all_cons, Bool.and_eq_true]
          refine ⟨?_, ih accm' mfin s rest' hrec⟩
          simp [active, accGet_accClear]
    · rw [if_neg ha] at h
      cases hrec : summarizeAux rest accm s true with
      | error e => rw [hrec] at h; simp at h
      | ok t =>
        obtain ⟨mfin, rest'⟩ := t
        rw [hrec] at h
        simp only [Except.ok.injEq, Prod.mk.injEq] at h
        rw [← h.2]
        simp only [freshFor, List.all_cons, Bool.and_eq_true]
        refine ⟨?_, ih accm mfin s rest' hrec⟩
        simp [Bool.not_eq_true] at ha
        simp [ha]

theorem summarizeAux_fresh {V : Type} (c : List (String × Brick V)) :
    ∀ (accm : NamedMap V) (s : Stage) (r : Bool), freshFor c s = true →
      summarizeAux c accm s r = .ok (accm, c) := by
  induction c with
  | nil => intro accm s r _; rfl
  | cons p rest ih =>
    obtain ⟨n, b⟩ := p
    intro accm s r hf
    simp only [freshFor, List.all_cons, Bool.and_eq_true] at hf
    obtain ⟨hb, hrest⟩ := hf
    have ha : ¬ active b s = true := by simp at hb; simp [hb]
    simp only [summarizeAux]
    rw [if_neg ha, ih accm s r hrest]

/-! Lemmas about the store rendering. -/

theorem cellGet_cellSet_ne {V : Type} (cs : List (NamedMap V)) :
    ∀ (i j : Nat) (m : NamedMap V), i ≠ j →
      cellGet (cellSet cs i m) j = cellGet cs j := by
  induction cs with
  | nil => intro i j m _; rfl
  | cons x rest ih =>
    intro i j m hij
    cases i with
    | zero =>
      cases j with
      | zero => exact absurd rfl hij
      | succ jj => rfl
    | succ ii =>
      cases j with
      | zero => rfl
      | succ jj => exact ih ii jj m (fun he => hij (by rw [he]))

theorem cellGet_cellSet_eq {V : Type} (cs : List (NamedMap V)) :
    ∀ (i : Nat) (m : NamedMap V), i < cs.length →
      cellGet (cellSet cs i m) i = m := by
  induction cs with
  | nil => intro i m h; simp at h
  | cons x rest ih =>
    intro i m h
    cases i with
    | zero => rfl
    | succ ii => exact ih ii m (Nat.lt_of_succ_lt_succ h)

theorem length_cellSet {V : Type} (cs : List (NamedMap V)) :
    ∀ (i : Nat) (m : NamedMap V), (cellSet cs i m).length = cs.length := by
  induction cs with
  | nil => intro i m; rfl
  | cons x rest ih =>
    intro i m
    cases i with
    | zero => rfl
    | succ ii => simp only [cellSet, List.length_cons, ih ii m]

theorem cellGet_append_lt {V : Type} (cs : List (NamedMap V)) :
    ∀ (j : Nat) (m : NamedMap V), j < cs.length →
      cellGet (cs ++ [m]) j = cellGet cs j := by
  induction cs with
  | nil => intro j m h; simp at h
  | cons x rest ih =>
    intro j m h
    cases j with
    | zero => rfl
    | succ jj => exact ih jj m (Nat.lt_of_succ_lt_succ h)

theorem runPassStore_read_ne {V : Type} (l : List (String × Brick V)) :
    ∀ (st : Store V) (cid : Nat) (lo : NamedMap V) (s : Stage) (j : Nat),
      j ≠ cid → ((runPassStore l st cid lo s).1).read j = st.read j := by
  induction l with
  | nil => intro st cid lo s j _; rfl
  | cons p rest ih =>
    obtain ⟨n, b⟩ := p
    intro st cid lo s j hj
    simp only [runPassStore]
    cases hinv : Brick.invoke n b (st.read cid) s with
    | error e => rfl
    | ok q =>
      obtain ⟨o, b'⟩ := q
      simp only []
      cases hrec : runPassStore rest (st.write cid (mergeAll (st.read cid) o)) cid
          (mergeAll lo (lossEntries b o)) s with
      | mk stF r =>
        have hread : stF.read j = (st.write cid (mergeAll (st.read cid) o)).read j := by
          have := ih (st.write cid (mergeAll (st.read cid) o)) cid
            (mergeAll lo (lossEntries b o)) s j hj
          rw [hrec] at this
          exact this
        have hw : (st.write cid (mergeAll (st.read cid) o)).read j = st.read j :=
          cellGet_cellSet_ne st.cells cid j _ (fun he => hj he.symm)
        cases r with
        | error e => exact hread.trans hw
        | ok t => obtain ⟨loF, bsF⟩ := t; exact hread.trans hw

theorem runPassStore_agrees {V : Type} (l : List (String × Brick V)) :
    ∀ (st : Store V) (cid : Nat) (lo : NamedMap V) (s : Stage),
      cid < st.cells.length →
      ((runPassStore l st cid lo s).2 =
        (runBricks l (st.read cid) lo s).map (fun x => (x.2.1, x.2.2))) ∧
      (∀ m loF bs, runBricks l (st.read cid) lo s = .ok (m, loF, bs) →
        ((runPassStore l st cid lo s).1).read cid = m) := by
  induction l with
  | nil =>
    intro st cid lo s _
    refine ⟨rfl, ?_⟩
    intro m loF bs h
    simp only [runBricks, Except.ok.injEq, Prod.mk.injEq] at h
    exact h.1
  | cons p rest ih =>
    obtain ⟨n, b⟩ := p
    intro st cid lo s hcid
    simp only [runPassStore, runBricks]
    cases hinv : Brick.invoke n b (st.read cid) s with
    | error e =>
      refine ⟨rfl, ?_⟩
      intro m loF bs h
      simp at h
    | ok q =>
      obtain ⟨o, b'⟩ := q
      simp only []
      have hlen : cid < (st.write cid (mergeAll (st.read cid) o)).cells.length := by
        simpa [Store.write, length_cellSet] using hcid
      have hreadw : (st.write cid (mergeAll (st.read cid) o)).read cid =
          mergeAll (st.read cid) o := cellGet_cellSet_eq st.cells cid _ hcid
      obtain ⟨ih1, ih2⟩ := ih (st.write cid (mergeAll (st.read cid) o)) cid
        (mergeAll lo (lossEntries b o)) s hlen
      rw [hreadw] at ih1 ih2
      cases hrec : runPassStore rest (st.write cid (mergeAll (st.read cid) o)) cid
          (mergeAll lo (lossEntries b o)) s with
      | mk stF r =>
        rw [hrec] at ih1 ih2
        simp only [] at ih1 ih2
        cases hrun : runBricks rest (mergeAll (st.read cid) o)
            (mergeAll lo (lossEntries b o)) s with
        | error e =>
          rw [hrun] at ih1
          simp only [Except.map] at ih1
          constructor
          · rw [ih1]
            rfl
          · intro m loF bs h
            simp at h
        | ok t =>
          obtain ⟨aF, loF', bsF⟩ := t
          rw [hrun] at ih1 ih2
          simp only [Except.map] at ih1
          constructor
          · rw [ih1]
            rfl
          · intro m loF bs h
            simp only [Except.ok.injEq, Prod.mk.injEq] at h
            rw [ih1]
            simp only []
            rw [← h.1]
            exact ih2 aF loF' bsF rfl

/-! The claims. -/

/-- Claim C1: for every unit and every stage outside its alive stages,
invoking the Collection is a no-op for that unit: the unit invocation
returns an empty output mapping and the unit itself unchanged (so the
accumulator is untouched and the result does not depend on the wrapped
computation), and the pass over a list starting with the dead unit equals
the pass without it — same named-value mapping, same losses — with the
unit returned untouched in its place. -/
theorem claimC1 {V : Type} (n : String) (b : Brick V) (avail losses : NamedMap V)
    (stage : Stage) (rest : List (String × Brick V))
    (h : b.alive_stages.holds stage = false) :
    Brick.invoke n b avail stage = .ok ([], b) ∧
    runBricks ((n, b) :: rest) avail losses stage =
      (runBricks rest avail losses stage).map
        (fun x => (x.1, x.2.1, (n, b) :: x.2.2)) := by
  have h1 := invoke_dead n b avail stage h
  refine ⟨h1, ?_⟩
  simp only [runBricks]
  rw [h1]
  simp only []
  rw [show mergeAll avail ([] : NamedMap V) = avail from rfl]
  rw [show lossEntries b ([] : NamedMap V) = [] from rfl]
  rw [show mergeAll losses ([] : NamedMap V) = losses from rfl]
  cases hr : runBricks rest avail losses stage with
  | error e => rfl
  | ok t => obtain ⟨aF, loF, bsF⟩ := t; rfl

/-- Witness for C1: the TRAIN-only loss unit invoked at INFERENCE is a
no-op. -/
theorem claimC1_witness :
    Brick.invoke "loss" dmLossBrick [("logits", 5), ("targets", 7)]
      Stage.INFERENCE = .ok ([], dmLossBrick) ∧
    runBricks [("loss", dmLossBrick)] [("logits", 5), ("targets", 7)] []
      Stage.INFERENCE =
      (runBricks [] [("logits", 5), ("targets", 7)] [] Stage.INFERENCE).map
        (fun x => (x.1, x.2.1, ("loss", dmLossBrick) :: x.2.2)) :=
  claimC1 "loss" dmLossBrick [("logits", 5), ("targets", 7)] [] Stage.INFERENCE []
    (by decide)

/-- Claim C2: the returned named_outputs mapping is the full accumulated
mapping: it contains every caller-supplied input key and every output key
of every alive output-forwarding unit. -/
theorem claimC2 {V : Type} (c : List (String × Brick V)) (inputs : NamedMap V)
    (stage : Stage) (m lo : NamedMap V) (c' : List (String × Brick V))
    (h : collectionInvoke c inputs stage = .ok (m, lo, c')) :
    (∀ j, j ∈ keys inputs → j ∈ keys m) ∧
    (∀ n b, (n, b) ∈ c → b.alive_stages.holds stage = true → forwards b = true →
      ∀ k, k ∈ b.output_names → k ∈ keys m) :=
  runBricks_keys c inputs [] m lo stage c' h

/-- Witness for C2, Scenario A: the Frozen-then-Trainable collection at
INFERENCE returns the mapping with exactly the keys raw, processed, y. -/
theorem claimC2_witness :
    collectionInvoke dmAColl dmAIn Stage.INFERENCE = .ok (dmAOut, [], dmAColl) ∧
    "raw" ∈ keys dmAOut ∧ "y" ∈ keys dmAOut ∧
    keys dmAOut = ["raw", "processed", "y"] :=
  ⟨rfl,
   (claimC2 dmAColl dmAIn Stage.INFERENCE dmAOut [] dmAColl rfl).1 "raw" (by decide),
   (claimC2 dmAColl dmAIn Stage.INFERENCE dmAOut [] dmAColl rfl).2 "head"
     (BrickTrainable dmHead ["processed"] ["y"])
     (List.Mem.tail _ (List.Mem.head _)) rfl rfl "y" (by decide),
   rfl⟩

/-- Claim C3: units execute strictly in declaration order with no
topological sorting; if the first alive unit whose declared inputs are not
the read-everything sentinel reaches the pass with one of its keys absent
from the accumulated mapping — in particular a unit declared before its
producer — the whole call fails with MissingInput naming that unit and the
first missing key. -/
theorem claimC3 {V : Type} (pre rest : List (String × Brick V)) (n : String)
    (b : Brick V) (inputs a1 lo1 : NamedMap V) (bs1 : List (String × Brick V))
    (stage : Stage) (ns : List String) (k : String)
    (hpre : runBricks pre inputs [] stage = .ok (a1, lo1, bs1))
    (halive : b.alive_stages.holds stage = true)
    (hnames : b.input_names = .names ns)
    (hmiss : firstMissing ns a1 = some k) :
    collectionInvoke (pre ++ (n, b) :: rest) inputs stage =
      .error (.MissingInput n k) := by
  unfold collectionInvoke
  rw [runBricks_append pre ((n, b) :: rest) inputs [] stage, hpre]
  simp only []
  have hi := invoke_missing n b a1 stage ns k halive hnames hmiss
  have hrb : runBricks ((n, b) :: rest) a1 lo1 stage =
      .error (.MissingInput n k) := by
    simp only [runBricks]
    rw [hi]
  rw [hrb]

/-- Witness for C3: a consumer of `processed` declared before the
preprocessor that produces it makes the call fail with MissingInput naming
the consumer and the key. -/
theorem claimC3_witness :
    collectionInvoke
      ([] ++ ("head", BrickTrainable dmHead ["processed"] ["y"]) ::
        [("preprocessor", BrickNotTrainable dmPre ["raw"] ["processed"])])
      [("raw", 8)] Stage.INFERENCE =
      .error (.MissingInput "head" "processed") :=
  claimC3 [] [("preprocessor", BrickNotTrainable dmPre ["raw"] ["processed"])]
    "head" (BrickTrainable dmHead ["processed"] ["y"]) [("raw", 8)] [("raw", 8)]
    [] [] Stage.INFERENCE ["processed"] "processed" rfl rfl rfl rfl

/-- Claim C4: a Loss unit defaults to alive_stages TRAIN, VALIDATION,
TEST; with alive_stages restricted to TRAIN, the INFERENCE call yields
neither an output entry nor a loss entry for the loss key, while the TRAIN
call with targets present yields the loss key in both, equal to the opaque
loss computation applied directly to the same inputs. -/
theorem claimC4 :
    (∀ (V : Type) (model : Batch V → List V) (inames onames : List String),
      (BrickLoss model inames onames).alive_stages =
        AliveStages.only [Stage.TRAIN, Stage.VALIDATION, Stage.TEST]) ∧
    dataPart (collectionInvoke dmBColl dmBInfIn Stage.INFERENCE) =
      some (dmBInfOut, []) ∧
    getVal? dmBInfOut "loss_ce" = none ∧
    dataPart (collectionInvoke dmBColl dmBTrIn Stage.TRAIN) =
      some (dmBTrOut, dmBTrLoss) ∧
    getVal? dmBTrOut "loss_ce" = (dmLossFn [("logits", 5), ("targets", 7)]).head? ∧
    getVal? dmBTrLoss "loss_ce" = (dmLossFn [("logits", 5), ("targets", 7)]).head? :=
  ⟨fun _ _ _ _ => rfl, rfl, rfl, rfl, rfl, rfl⟩

/-- Claim C5: invoke is deterministic up to metric accumulator mutation:
re-invoking the updated collection with the same inputs and stage yields
the same non-metric outputs (the named-value mapping and the losses). -/
theorem claimC5 {V : Type} (c : List (String × Brick V)) (inputs : NamedMap V)
    (stage : Stage) (m lo : NamedMap V) (c' : List (String × Brick V))
    (h : collectionInvoke c inputs stage = .ok (m, lo, c')) :
    dataPart (collectionInvoke c' inputs stage) = some (m, lo) := by
  have h' : runBricks c inputs [] stage = .ok (m, lo, c') := h
  have hpres := runBricks_preserves_eraseAcc c inputs [] m lo stage c' h'
  have hcong := runBricks_acc_congr c' c inputs [] stage hpres
  unfold collectionInvoke
  rw [hcong, h']
  rfl

/-- Witness for C5: after one TRAIN call updates the counting metric's
accumulator, a second call on the updated collection returns the same
outputs and losses. -/
theorem claimC5_witness :
    collectionInvoke dmMColl dmMIn Stage.TRAIN = .ok (dmMIn, [], dmMColl1) ∧
    dataPart (collectionInvoke dmMColl1 dmMIn Stage.TRAIN) = some (dmMIn, []) :=
  ⟨rfl, claimC5 dmMColl dmMIn Stage.TRAIN dmMIn [] dmMColl1 rfl⟩

/-- Claim C6: summarize with reset = false is idempotent: it leaves every
unit untouched, so calling it twice in a row returns the same metric-value
mapping both times. -/
theorem claimC6 {V : Type} (c : List (String × Brick V)) (s : Stage)
    (m : NamedMap V) (c' : List (String × Brick V))
    (h : summarize c s false = .ok (m, c')) :
    summarize c' s false = .ok (m, c') := by
  have hc := summarizeAux_noreset c [] m s c' h
  subst hc
  exact h

/-- Witness for C6: summarizing the counting metric with one recorded
TRAIN batch, twice, yields the same mapping. -/
theorem claimC6_witness :
    summarize dmMColl1 Stage.TRAIN false = .ok ([("count", 1)], dmMColl1) :=
  claimC6 dmMColl1 Stage.TRAIN [("count", 1)] dmMColl1 rfl

/-- Claim C7: summarize with reset = true followed by summarize with
reset = false returns the empty mapping, and summarize on a collection
holding no metric state for the stage (in particular with no prior
invocations) returns the empty mapping rather than an error. -/
theorem claimC7 (V : Type) :
    (∀ (c : List (String × Brick V)) (s : Stage) (m : NamedMap V)
        (c' : List (String × Brick V)),
      summarize c s true = .ok (m, c') → summarize c' s false = .ok ([], c')) ∧
    (∀ (c : List (String × Brick V)) (s : Stage) (r : Bool),
      freshFor c s = true → summarize c s r = .ok ([], c)) := by
  constructor
  · intro c s m c' h
    have hf := summarizeAux_reset_fresh c [] m s c' h
    exact summarizeAux_fresh c' [] s false hf
  · intro c s r hf
    exact summarizeAux_fresh c [] s r hf

/-- Witness for C7: draining the counting metric with reset, then
summarizing again, yields the empty mapping; and the state-free collection
summarizes to the empty mapping. -/
theorem claimC7_witness :
    summarize dmMColl Stage.TRAIN false = .ok ([], dmMColl) ∧
    summarize dmMColl Stage.TRAIN true = .ok ([], dmMColl) :=
  ⟨(claimC7 Nat).1 dmMColl1 Stage.TRAIN [("count", 1)] dmMColl rfl,
   (claimC7 Nat).2 dmMColl Stage.TRAIN true (by decide)⟩

/-- Claim C8: nesting is transparent for data flow: the Collection built
from the nested entries outer -> (inner_a, inner_b) produces, for every
input mapping and stage, the same named-value results and losses as the
flat Collection with the same units in the same order; the dotted name
prefixes affect only unit naming, never the named-value mapping. -/
theorem claimC8 {V : Type} (A B : Brick V) (inputs : NamedMap V) (stage : Stage) :
    dataPart (collectionInvoke
      (BrickCollection [("outer", BrickTree.node
        [("inner_a", BrickTree.leaf A), ("inner_b", BrickTree.leaf B)])])
      inputs stage) =
    dataPart (collectionInvoke
      (BrickCollection [("inner_a", BrickTree.leaf A), ("inner_b", BrickTree.leaf B)])
      inputs stage) := by
  unfold collectionInvoke
  exact runBricks_name_congr _ _ inputs [] stage (by simp [BrickCollection, flattenForest])

/-- Claim C9: an invocation never touches the caller's mapping: in the
store rendering, the call allocates a fresh cell seeded from the caller's
cell and every merge during the pass writes only the fresh cell, so after
the call the caller's cell reads exactly as before. -/
theorem claimC9 {V : Type} (c : List (String × Brick V)) (st : Store V)
    (callerId : Nat) (stage : Stage) (h : callerId < st.cells.length) :
    ((callOnStore c st callerId stage).1).read callerId = st.read callerId := by
  unfold callOnStore
  simp only [Store.alloc]
  have hne : callerId ≠ st.cells.length := Nat.ne_of_lt h
  rw [runPassStore_read_ne c ⟨st.cells ++ [st.read callerId]⟩ st.cells.length
    [] stage callerId hne]
  exact cellGet_append_lt st.cells callerId (st.read callerId) h

/-- Witness for C9: running Scenario A's collection on a one-cell store
leaves the caller's cell unchanged. -/
theorem claimC9_witness :
    ((callOnStore dmAColl dmStore 0 Stage.INFERENCE).1).read 0 = dmStore.read 0 ∧
    dmStore.read 0 = [("raw", 8)] :=
  ⟨claimC9 dmAColl dmStore 0 Stage.INFERENCE (by decide), rfl⟩

/-- Claim C10: BrickTrainable and BrickNotTrainable built without an
explicit alive_stages argument default to the all-stages sentinel, so they
are alive at every stage, including INFERENCE and EXPORT. -/
theorem claimC10 :
    ∀ (V : Type) (model : Batch V → List V) (inames onames : List String)
      (s : Stage),
      (BrickTrainable model inames onames).alive_stages = AliveStages.all ∧
      (BrickNotTrainable model inames onames).alive_stages = AliveStages.all ∧
      (BrickTrainable model inames onames).alive_stages.holds s = true ∧
      (BrickNotTrainable model inames onames).alive_stages.holds s = true :=
  fun _ _ _ _ _ => ⟨rfl, rfl, rfl, rfl⟩

end Torchbricks
